import Mathlib

/-
Shallow embedding of src/app.py (anonymization pipeline).

Strings are lists of characters.  Cells of the loaded table are strings,
numbers, or the null marker NaN produced by the loader (pd.read_excel turns
blank spreadsheet cells into NaN).  A column whose cells are strings, numbers
or NaN has pandas dtype object exactly when it contains at least one string;
an all-NaN or all-numeric column has a numeric dtype (float64 or int64) and is
therefore not a classification candidate (line 70 of src/app.py).

Rate thresholds (match_rate >= 0.80, has_numbers_rate < 0.20) are embedded as
the exact rational comparisons 5*count >= 4*len and 5*count < len; for counts
and lengths of realistic magnitude the float comparison in the source agrees
with the exact rational one.
-/

abbrev Str := List Char

/-- Python ASCII whitespace, as recognized by str.split and str.strip. -/
def isSpace (c : Char) : Bool :=
  c = ' ' || c = '\t' || c = '\n' || c = '\r' || c = '\x0b' || c = '\x0c'

/-- A cell of the loaded table: NaN, a string, or a number. -/
inductive Cell where
  | null
  | str (s : Str)
  | num (n : Int)
deriving DecidableEq

/-- True exactly for string cells (isinstance(x, str) at the masker boundary). -/
def Cell.isStr : Cell → Bool
  | Cell.str _ => true
  | _ => false

/-- The string carried by a string cell (empty string otherwise). -/
def Cell.getStr : Cell → Str
  | Cell.str s => s
  | _ => []

/-- Python str.split with no separator: the accumulator holds the current
token reversed; runs of whitespace separate tokens and empty tokens are
dropped. -/
def splitWSAux : Str → Str → List Str
  | [], acc => if acc.isEmpty then [] else [acc.reverse]
  | c :: cs, acc =>
    if isSpace c then
      if acc.isEmpty then splitWSAux cs [] else acc.reverse :: splitWSAux cs []
    else splitWSAux cs (c :: acc)

/-- Python str.split() on whitespace. -/
def splitWS (s : Str) : List Str := splitWSAux s []

/-- Python " ".join: tokens joined by single spaces. -/
def joinSpace : List Str → Str
  | [] => []
  | [t] => t
  | t :: ts => t ++ ' ' :: joinSpace ts

/-- Line 31 of src/app.py: part[0] + chr(42) repeated (len(part) - 1) times for a
nonempty token; an empty token is kept as-is (line 34). -/
def maskPart (t : Str) : Str :=
  match t with
  | [] => []
  | c :: rest => c :: rest.map (fun _ => '*')

/-- mask_name, src/app.py lines 12 to 36: non-strings and all-whitespace
strings pass through unchanged; otherwise the first whitespace token is kept
and every later token is masked, and tokens are rejoined with single spaces. -/
def mask_name (v : Cell) : Cell :=
  match v with
  | Cell.str s =>
    if s.all isSpace then Cell.str s
    else
      match splitWS s with
      | [] => Cell.str s
      | p :: ps => Cell.str (joinSpace (p :: List.map maskPart ps))
  | v => v

/-- Does the text start with the pattern (elementwise equality)? -/
def listStartsWith : Str → Str → Bool
  | [], _ => true
  | _ :: _, [] => false
  | c :: cs, d :: ds => c == d && listStartsWith cs ds

/-- Substring containment, the Python expression pat in s. -/
def containsSub (pat : Str) : Str → Bool
  | [] => pat.isEmpty
  | c :: cs => listStartsWith pat (c :: cs) || containsSub pat cs

/-- Full match of the fixed-shape identifier regex of src/app.py line 48
(three digits, dot, three digits, dot, three digits, dash, two digits):
exactly 14 characters with digits and literal separators at fixed positions. -/
def cpfFullMatch (s : Str) : Bool :=
  s.length == 14 &&
  digitAt s 0 && digitAt s 1 && digitAt s 2 && sepAt s 3 '.' &&
  digitAt s 4 && digitAt s 5 && digitAt s 6 && sepAt s 7 '.' &&
  digitAt s 8 && digitAt s 9 && digitAt s 10 && sepAt s 11 '-' &&
  digitAt s 12 && digitAt s 13
where
  digitAt (s : Str) (i : Nat) : Bool :=
    match s[i]? with
    | some c => c.isDigit
    | none => false
  sepAt (s : Str) (i : Nat) (c : Char) : Bool := s[i]? == some c

/-- The substitution of src/app.py line 53 applied to a string that is one
whole match: group 1 is the first three characters, group 2 the last two. -/
def cpfMasked (s : Str) : Str :=
  s.take 3 ++ ".***.***-".toList ++ s.drop 12

/-- mask_cpf, src/app.py lines 39 to 56: non-strings pass through; a string
that fully matches the identifier pattern keeps its first three and last two
digits with the middle six starred out; any other string becomes NaN. -/
def mask_cpf (v : Cell) : Cell :=
  match v with
  | Cell.str s => if cpfFullMatch s then Cell.str (cpfMasked s) else Cell.null
  | v => v

/-- Python str.istitle (ASCII model): uppercase may only follow an uncased
character, lowercase may only follow a cased one, and at least one cased
character must occur.  The two accumulators are previous-is-cased and
seen-a-cased-character. -/
def istitleAux : Str → Bool → Bool → Bool
  | [], _, cased => cased
  | c :: cs, prevCased, cased =>
    if c.isUpper then
      if prevCased then false else istitleAux cs true true
    else if c.isLower then
      if prevCased then istitleAux cs true true else false
    else istitleAux cs false cased

/-- Python str.istitle on a whole string. -/
def istitle (s : Str) : Bool := istitleAux s false false

/-- A table: ordered, named columns of cells (the DataFrame of the source). -/
structure Table where
  cols : List (Str × List Cell)

/-- The ordered column labels, df.columns. -/
def colNames (df : Table) : List Str := df.cols.map Prod.fst

/-- Label lookup over the column list: first column with the given name. -/
def lookupCol : List (Str × List Cell) → Str → List Cell
  | [], _ => []
  | p :: rest, name => if p.fst = name then p.snd else lookupCol rest name

/-- Column selection df[col] by label. -/
def getCol (df : Table) (name : Str) : List Cell := lookupCol df.cols name

/-- Value of a cell after dropna().astype(str): NaN is dropped, strings kept,
numbers rendered in decimal. -/
def cellStr : Cell → Option Str
  | Cell.null => none
  | Cell.str s => some s
  | Cell.num n => some (toString n).toList

/-- The series df[col].dropna().astype(str), as the list of non-null values. -/
def seriesOf (cells : List Cell) : List Str := cells.filterMap cellStr

/-- Pandas dtype object for columns of strings, numbers and NaN: at least one
cell holds a string. -/
def isObjectDtype (cells : List Cell) : Bool := cells.any Cell.isStr

/-- Candidate columns (src/app.py line 70): labels of object-dtype columns,
in table order. -/
def candidateCols (df : Table) : List Str :=
  (colNames df).filter (fun n => isObjectDtype (getCol df n))

/-- Number of series values that fully match the identifier pattern. -/
def cpfMatchCount (series : List Str) : Nat := (series.filter cpfFullMatch).length

/-- The test match_rate >= 0.80 of src/app.py line 80, as an exact rational
comparison: matches / len >= 4 / 5. -/
def cpfRateHigh (series : List Str) : Bool :=
  decide (4 * series.length ≤ 5 * cpfMatchCount series)

/-- The identifier-detection loop, src/app.py lines 73 to 83: first candidate
column, in order, whose non-null series is nonempty and matches the pattern at
rate at least 0.80; the scan stops there. -/
def findCpf (df : Table) : List Str → Option Str
  | [] => none
  | n :: rest =>
    let series := seriesOf (getCol df n)
    if series.isEmpty then findCpf df rest
    else if cpfRateHigh series then some n
    else findCpf df rest

/-- The fixed keyword vocabulary of src/app.py line 89. -/
def name_keywords : List Str :=
  ["proprietário".toList, "titular".toList, "nome".toList, "contratante".toList]

/-- ASCII lowercasing of a label (Python str.lower restricted to ASCII). -/
def lowerStr (s : Str) : Str := s.map Char.toLower

/-- The keyword rule of src/app.py line 95: some keyword occurs in the
lowercased column label. -/
def keywordHit (name : Str) : Bool :=
  name_keywords.any (fun k => containsSub k (lowerStr name))

/-- Does the value contain at least one digit (the regex search on line 105)? -/
def hasDigit (s : Str) : Bool := s.any Char.isDigit

/-- Number of series values containing a digit. -/
def digitCount (series : List Str) : Nat := (series.filter hasDigit).length

/-- The test has_numbers_rate < 0.20 of src/app.py line 107, as an exact
rational comparison: digitCount / len < 1 / 5. -/
def digitRateLow (series : List Str) : Bool :=
  decide (5 * digitCount series < series.length)

/-- The content heuristic of src/app.py lines 101 to 110: an empty non-null
series contributes nothing; otherwise fewer than 20 percent of values may
contain digits, and the first non-null value must have at least two whitespace
tokens and be istitle. -/
def contentHit (cells : List Cell) : Bool :=
  match seriesOf cells with
  | [] => false
  | h :: t =>
    if digitRateLow (h :: t) then
      decide (2 ≤ (splitWS h).length) && istitle h
    else false

/-- One pass of the name loop body for a remaining candidate column:
keyword rule first, content heuristic as the fallback. -/
def nameTest (df : Table) (name : Str) : Bool :=
  keywordHit name || contentHit (getCol df name)

/-- The classifier result: at most one identifier column, a list of name
columns, everything else unclassified. -/
structure ColumnMap where
  cpf : Option Str
  nome : List Str

/-- classify_columns, src/app.py lines 61 to 112: identifier detection first
over the object-dtype candidates; on success that label is removed from the
candidate list (list.remove drops the first occurrence, List.erase); the
remaining candidates are scanned in order and collected into the name list
when the keyword rule or the content heuristic fires. -/
def classify_columns (df : Table) : ColumnMap :=
  let candidates := candidateCols df
  match findCpf df candidates with
  | some n => { cpf := some n, nome := (candidates.erase n).filter (nameTest df) }
  | none => { cpf := none, nome := candidates.filter (nameTest df) }

/-- Column assignment df[name] = cells: replace an existing column of that
label, else append a new column at the end. -/
def setCol (df : Table) (name : Str) (cells : List Cell) : Table :=
  if df.cols.any (fun p => p.fst == name) then
    { cols := df.cols.map (fun p => if p.fst == name then (name, cells) else p) }
  else
    { cols := df.cols ++ [(name, cells)] }

/-- The Mascarado label fragment used by the output filter on line 157. -/
def mascarado : Str := "Mascarado".toList

/-- The label suffix for derived masked columns (lines 144 and 148). -/
def mascaradoSuffix : Str := " Mascarado".toList

/-- process_data_and_anonymize, src/app.py lines 117 to 159, from the
classification step to the emitted output table; none models the abort path
of lines 132 to 135, where no masked column is created and no file is
written.  On success the masked identifier column and one masked column per
name column are appended, and the emitted table keeps exactly the columns
passing the line 157 filter.  In the source that filter is
col contains Mascarado, or col is a member of column_map.values(); the
values view holds the name-column LIST and the identifier label, so a string
column label can only ever equal the identifier label — the raw identifier
column is kept and every other original column is dropped. -/
def process_data_and_anonymize (df : Table) : Option Table :=
  let cm := classify_columns df
  match cm.cpf with
  | none => none
  | some cpfCol =>
    if cm.nome.isEmpty then none
    else
      let df1 := setCol df ("CPF Mascarado".toList) ((getCol df cpfCol).map mask_cpf)
      let df2 := cm.nome.foldl
        (fun d n => setCol d (n ++ mascaradoSuffix) ((getCol d n).map mask_name)) df1
      let keep := fun (p : Str × List Cell) => containsSub mascarado p.fst || p.fst == cpfCol
      some { cols := df2.cols.filter keep }

/-- The end-to-end scenario table of the design document: Owner holds
title-case two-token names, CPF holds fully valid identifiers, Address holds
digit-bearing strings. -/
def scenarioTable : Table :=
  { cols := [
      ("Owner".toList,
        [Cell.str "Maria Silva".toList, Cell.str "Joao Souza".toList]),
      ("CPF".toList,
        [Cell.str "123.456.789-09".toList, Cell.str "987.654.321-00".toList]),
      ("Address".toList,
        [Cell.str "Rua 123".toList, Cell.str "Av 45".toList])] }

/-- A table with an all-null column whose label contains the keyword Nome. -/
def nullColTable : Table :=
  { cols := [
      ("Nome".toList, [Cell.null, Cell.null]),
      ("CPF".toList, [Cell.str "123.456.789-09".toList])] }

/-- A one-column table whose single value is two-token and title-case in the
token-wise sense of the design document but not in the istitle sense of the
source (a lowercase letter directly after a hyphen). -/
def hyphenTable : Table :=
  { cols := [("Col1".toList, [Cell.str "Maria-jose Silva".toList])] }

/-- The title-case condition exactly as the design document words it
(refinement comparison only, not a transcription of the source): every
whitespace token starts with a capital letter and its remainder contains no
capital letter. -/
def specTitleCase (s : Str) : Bool :=
  (splitWS s).all (fun t =>
    match t with
    | [] => false
    | c :: rest => c.isUpper && rest.all (fun d => !d.isUpper))

/-! Helper lemmas about whitespace splitting and joining. -/

theorem splitWSAux_of_all_space (s : Str) (h : s.all isSpace = true) :
    splitWSAux s [] = [] := by
  induction s with
  | nil => rfl
  | cons c cs ih =>
    simp only [List.all_cons, Bool.and_eq_true] at h
    simp [splitWSAux, h.1, ih h.2]

theorem splitWSAux_eq_nil (s : Str) :
    ∀ acc : Str, splitWSAux s acc = [] → acc = [] ∧ s.all isSpace = true := by
  induction s with
  | nil =>
    intro acc h
    cases acc with
    | nil => exact ⟨rfl, rfl⟩
    | cons a as => simp [splitWSAux] at h
  | cons c cs ih =>
    intro acc h
    by_cases hc : isSpace c = true
    · cases acc with
      | nil =>
        have h2 := ih [] (by simpa [splitWSAux, hc] using h)
        exact ⟨rfl, by simp [List.all_cons, hc, h2.2]⟩
      | cons a as => simp [splitWSAux, hc] at h
    · have h2 := ih (c :: acc) (by simpa [splitWSAux, hc] using h)
      exact absurd h2.1 (by simp)

theorem splitWSAux_nil_nonempty (acc : Str) (h : acc ≠ []) :
    splitWSAux [] acc = [acc.reverse] := by
  cases acc with
  | nil => exact absurd rfl h
  | cons a as => rfl

theorem splitWSAux_tokens (s : Str) :
    ∀ acc : Str, (∀ c ∈ acc, isSpace c = false) →
      ∀ t ∈ splitWSAux s acc, t ≠ [] ∧ ∀ c ∈ t, isSpace c = false := by
  induction s with
  | nil =>
    intro acc hacc t ht
    cases acc with
    | nil => simp [splitWSAux] at ht
    | cons a as =>
      rw [splitWSAux_nil_nonempty (a :: as) (by simp), List.mem_singleton] at ht
      subst ht
      refine ⟨by simp, ?_⟩
      intro c hc
      exact hacc c (List.mem_reverse.mp hc)
  | cons ch cs ih =>
    intro acc hacc t ht
    by_cases hc : isSpace ch = true
    · cases acc with
      | nil =>
        rw [show splitWSAux (ch :: cs) [] = splitWSAux cs [] by simp [splitWSAux, hc]] at ht
        exact ih [] (by simp) t ht
      | cons a as =>
        rw [show splitWSAux (ch :: cs) (a :: as) = (a :: as).reverse :: splitWSAux cs [] by
          simp [splitWSAux, hc]] at ht
        rcases List.mem_cons.mp ht with h1 | h1
        · subst h1
          refine ⟨by simp, ?_⟩
          intro c hc2
          exact hacc c (List.mem_reverse.mp hc2)
        · exact ih [] (by simp) t h1
    · rw [show splitWSAux (ch :: cs) acc = splitWSAux cs (ch :: acc) by
        simp [splitWSAux, hc]] at ht
      refine ih (ch :: acc) ?_ t ht
      intro c hc2
      rcases List.mem_cons.mp hc2 with rfl | h3
      · simpa using hc
      · exact hacc c h3

theorem splitWSAux_nonspace_chunk (t : Str) (ht : ∀ c ∈ t, isSpace c = false) :
    ∀ (rest acc : Str), splitWSAux (t ++ rest) acc = splitWSAux rest (t.reverse ++ acc) := by
  induction t with
  | nil => intro rest acc; simp
  | cons c t2 ih =>
    intro rest acc
    have hc : isSpace c = false := ht c (List.mem_cons_self c t2)
    rw [List.cons_append]
    rw [show splitWSAux (c :: (t2 ++ rest)) acc = splitWSAux (t2 ++ rest) (c :: acc) by
      simp [splitWSAux, hc]]
    rw [ih (fun d hd => ht d (List.mem_cons_of_mem c hd)) rest (c :: acc)]
    simp

theorem splitWSAux_space_cons (rest acc : Str) (h : acc ≠ []) :
    splitWSAux (' ' :: rest) acc = acc.reverse :: splitWSAux rest [] := by
  cases acc with
  | nil => exact absurd rfl h
  | cons a as => rfl

theorem splitWS_joinSpace (ts : List Str)
    (hg : ∀ t ∈ ts, t ≠ [] ∧ ∀ c ∈ t, isSpace c = false) (hne : ts ≠ []) :
    splitWS (joinSpace ts) = ts := by
  induction ts with
  | nil => exact absurd rfl hne
  | cons t ts2 ih =>
    have hgt := hg t (List.mem_cons_self t ts2)
    cases ts2 with
    | nil =>
      have h1 := splitWSAux_nonspace_chunk t hgt.2 [] []
      rw [List.append_nil] at h1
      show splitWSAux (joinSpace [t]) [] = [t]
      rw [show joinSpace [t] = t from rfl, h1, List.append_nil,
        splitWSAux_nil_nonempty _ (by simpa using hgt.1), List.reverse_reverse]
    | cons u ts3 =>
      have h1 := splitWSAux_nonspace_chunk t hgt.2 (' ' :: joinSpace (u :: ts3)) []
      rw [List.append_nil] at h1
      show splitWSAux (joinSpace (t :: u :: ts3)) [] = t :: u :: ts3
      rw [show joinSpace (t :: u :: ts3) = t ++ ' ' :: joinSpace (u :: ts3) from rfl, h1,
        splitWSAux_space_cons _ _ (by simpa using hgt.1), List.reverse_reverse]
      congr 1
      exact ih (fun x hx => hg x (List.mem_cons_of_mem t hx)) (by simp)

theorem maskPart_good (t : Str) (h1 : t ≠ []) (h2 : ∀ c ∈ t, isSpace c = false) :
    maskPart t ≠ [] ∧ ∀ c ∈ maskPart t, isSpace c = false := by
  cases t with
  | nil => exact absurd rfl h1
  | cons c rest =>
    refine ⟨by simp [maskPart], ?_⟩
    intro d hd
    simp only [maskPart] at hd
    rcases List.mem_cons.mp hd with rfl | hmem
    · exact h2 d (List.mem_cons_self d rest)
    · rcases List.mem_map.mp hmem with ⟨x, _, rfl⟩
      decide

theorem maskPart_shape (t : Str) (h : t ≠ []) :
    maskPart t = t.take 1 ++ List.replicate (t.length - 1) '*' := by
  cases t with
  | nil => exact absurd rfl h
  | cons c rest => simp [maskPart, List.map_const']

theorem mask_name_of_split (s p : Str) (ps : List Str) (h : splitWS s = p :: ps) :
    mask_name (Cell.str s) = Cell.str (joinSpace (p :: List.map maskPart ps)) := by
  have hall : ¬ s.all isSpace = true := by
    intro hs
    rw [splitWS, splitWSAux_of_all_space s hs] at h
    exact List.noConfusion h
  simp only [mask_name, if_neg hall, h]

theorem masked_tokens_good (s p : Str) (ps : List Str) (h : splitWS s = p :: ps) :
    ∀ t ∈ p :: List.map maskPart ps, t ≠ [] ∧ ∀ c ∈ t, isSpace c = false := by
  have htoks : ∀ t ∈ splitWS s, t ≠ [] ∧ ∀ c ∈ t, isSpace c = false :=
    splitWSAux_tokens s [] (by intro c hc; cases hc)
  rw [h] at htoks
  intro t ht
  rcases List.mem_cons.mp ht with rfl | hmem
  · exact htoks t (List.mem_cons_self t ps)
  · rcases List.mem_map.mp hmem with ⟨x, hx, rfl⟩
    have hx2 := htoks x (List.mem_cons_of_mem p hx)
    exact maskPart_good x hx2.1 hx2.2

/-- C2: mask_name keeps non-string inputs and all-whitespace strings
unchanged; on a string with k whitespace tokens (k at least 1) the output is
the tokens rejoined by single spaces in order, the output re-splits into
exactly those k tokens, the first token is the input first token verbatim,
and every later token of length n is its first character followed by n - 1
asterisks. -/
theorem c2_mask_name_token_spec :
    (∀ v : Cell, v.isStr = false → mask_name v = v) ∧
    (∀ s : Str, s.all isSpace = true → mask_name (Cell.str s) = Cell.str s) ∧
    (∀ (s p : Str) (ps : List Str), splitWS s = p :: ps →
      mask_name (Cell.str s) = Cell.str (joinSpace (p :: List.map maskPart ps)) ∧
      splitWS (joinSpace (p :: List.map maskPart ps)) = p :: List.map maskPart ps ∧
      ∀ t ∈ ps, t ≠ [] ∧ maskPart t = t.take 1 ++ List.replicate (t.length - 1) '*') := by
  refine ⟨?_, ?_, ?_⟩
  · intro v hv
    cases v with
    | null => rfl
    | str s => simp [Cell.isStr] at hv
    | num n => rfl
  · intro s hs
    simp [mask_name, hs]
  · intro s p ps h
    have htoks : ∀ t ∈ splitWS s, t ≠ [] ∧ ∀ c ∈ t, isSpace c = false :=
      splitWSAux_tokens s [] (by intro c hc; cases hc)
    rw [h] at htoks
    refine ⟨mask_name_of_split s p ps h, ?_, ?_⟩
    · exact splitWS_joinSpace _ (masked_tokens_good s p ps h) (by simp)
    · intro t ht
      have h2 := htoks t (List.mem_cons_of_mem p ht)
      exact ⟨h2.1, maskPart_shape t h2.1⟩

/-- Witness for C2 at concrete inputs: a numeric cell, an all-whitespace
string, and the three-token name from the design document. -/
theorem c2_witness :
    mask_name (Cell.num 7) = Cell.num 7 ∧
    mask_name (Cell.str "   ".toList) = Cell.str "   ".toList ∧
    mask_name (Cell.str "Maria Aparecida Silva".toList) =
      Cell.str (joinSpace ("Maria".toList ::
        List.map maskPart ["Aparecida".toList, "Silva".toList])) :=
  ⟨c2_mask_name_token_spec.1 (Cell.num 7) (by decide),
   c2_mask_name_token_spec.2.1 "   ".toList (by decide),
   (c2_mask_name_token_spec.2.2 "Maria Aparecida Silva".toList "Maria".toList
      ["Aparecida".toList, "Silva".toList] (by decide)).1⟩

/-- C8 counterexample: on the input Maria Aparecida Silva the masker does NOT
return the string Maria A******* S**** claimed by the design document (seven
asterisks after the A). -/
theorem c8_counterexample :
    mask_name (Cell.str "Maria Aparecida Silva".toList) ≠
      Cell.str "Maria A******* S****".toList := by decide

/-- C8 amended: Aparecida has nine characters, so its masked form is the
letter A followed by eight asterisks; the masker returns
Maria A******** S****. -/
theorem c8_amended_output :
    mask_name (Cell.str "Maria Aparecida Silva".toList) =
      Cell.str "Maria A******** S****".toList := by decide

/-- C10: on every string whose trimmed form is nonempty (not all whitespace)
the mask_name output is a string in whitespace normal form: splitting it on
whitespace and rejoining with single spaces reproduces it verbatim, so it has
no leading or trailing whitespace, no empty tokens and no run of two spaces;
hence mask_name is not the identity on padded inputs: a padded single token
comes back trimmed and internal whitespace runs collapse to single spaces. -/
theorem c10_mask_name_normalized :
    (∀ s : Str, s.all isSpace = false →
      (mask_name (Cell.str s)).isStr = true ∧
      joinSpace (splitWS (mask_name (Cell.str s)).getStr) =
        (mask_name (Cell.str s)).getStr) ∧
    mask_name (Cell.str " Maria ".toList) = Cell.str "Maria".toList ∧
    mask_name (Cell.str "Ana  Maria".toList) = Cell.str "Ana M****".toList := by
  refine ⟨?_, by decide, by decide⟩
  intro s hs
  have hsp : splitWS s ≠ [] := by
    intro hnil
    have h2 := (splitWSAux_eq_nil s [] hnil).2
    rw [hs] at h2
    exact Bool.noConfusion h2
  obtain ⟨p, ps, h⟩ : ∃ p ps, splitWS s = p :: ps := by
    cases hh : splitWS s with
    | nil => exact absurd hh hsp
    | cons a b => exact ⟨a, b, rfl⟩
  rw [mask_name_of_split s p ps h]
  refine ⟨rfl, ?_⟩
  show joinSpace (splitWS (joinSpace (p :: List.map maskPart ps))) =
    joinSpace (p :: List.map maskPart ps)
  rw [splitWS_joinSpace _ (masked_tokens_good s p ps h) (by simp)]

/-- Witness for C10 at a concrete padded two-token input. -/
theorem c10_witness :
    (" Bob  Ann ".toList.all isSpace = false) ∧
    joinSpace (splitWS (mask_name (Cell.str " Bob  Ann ".toList)).getStr) =
      (mask_name (Cell.str " Bob  Ann ".toList)).getStr :=
  ⟨by decide, (c10_mask_name_normalized.1 " Bob  Ann ".toList (by decide)).2⟩

/-! Lemmas about the identifier masker. -/

theorem cpfFullMatch_length (s : Str) (h : cpfFullMatch s = true) : s.length = 14 := by
  by_contra hne
  have h2 : (s.length == 14) = false := by simpa using hne
  simp [cpfFullMatch, h2] at h

/-- C3: mask_cpf returns non-strings unchanged; on a string that fully
matches the identifier pattern it returns the first three characters, the
literal middle .***.***- and the last two characters; on every other string
(including the malformed 123.456.78-09, a partial-looking value) it returns
the null marker; the embedding is a total function, so no input raises. -/
theorem c3_mask_cpf_spec :
    (∀ v : Cell, v.isStr = false → mask_cpf v = v) ∧
    (∀ s : Str, cpfFullMatch s = true →
      s.length = 14 ∧
      mask_cpf (Cell.str s) = Cell.str (s.take 3 ++ ".***.***-".toList ++ s.drop 12)) ∧
    (∀ s : Str, cpfFullMatch s = false → mask_cpf (Cell.str s) = Cell.null) ∧
    mask_cpf (Cell.str "123.456.78-09".toList) = Cell.null := by
  refine ⟨?_, ?_, ?_, by decide⟩
  · intro v hv
    cases v with
    | null => rfl
    | str s => simp [Cell.isStr] at hv
    | num n => rfl
  · intro s hs
    exact ⟨cpfFullMatch_length s hs, by simp [mask_cpf, hs, cpfMasked]⟩
  · intro s hs
    simp [mask_cpf, hs]

/-- Witness for C3 at concrete inputs: a numeric cell, the valid identifier of
the design document, and the malformed one. -/
theorem c3_witness :
    mask_cpf (Cell.num 5) = Cell.num 5 ∧
    mask_cpf (Cell.str "123.456.789-09".toList) = Cell.str "123.***.***-09".toList ∧
    mask_cpf (Cell.str "123.456.78-09".toList) = Cell.null :=
  ⟨c3_mask_cpf_spec.1 (Cell.num 5) (by decide),
   ((c3_mask_cpf_spec.2.1 "123.456.789-09".toList (by decide)).2).trans (by decide),
   c3_mask_cpf_spec.2.2.1 "123.456.78-09".toList (by decide)⟩

/-- C9: whenever mask_cpf turns a string into a (non-null) masked string, that
output has an asterisk where the pattern demands a digit, so it never fully
matches the identifier pattern again, and applying mask_cpf to it yields the
null marker: no value is ever double-masked. -/
theorem c9_no_double_masking (s t : Str) (h : mask_cpf (Cell.str s) = Cell.str t) :
    cpfFullMatch t = false ∧ mask_cpf (Cell.str t) = Cell.null := by
  have hm : cpfFullMatch s = true := by
    by_contra hc
    have h2 : cpfFullMatch s = false := by simpa using hc
    simp [mask_cpf, h2] at h
  have ht : t = cpfMasked s := by
    simp [mask_cpf, hm] at h
    exact h.symm
  have hlen : s.length = 14 := cpfFullMatch_length s hm
  have htake : (s.take 3).length = 3 := by
    simp [List.length_take, hlen]
  have h4 : t[4]? = some '*' := by
    rw [ht, cpfMasked, List.append_assoc,
      List.getElem?_append_right (by rw [htake]; omega)]
    rw [htake]
    rfl
  have hdig : cpfFullMatch.digitAt t 4 = false := by
    simp [cpfFullMatch.digitAt, h4]
  have hfm : cpfFullMatch t = false := by
    by_contra hc
    have h2 : cpfFullMatch t = true := by simpa using hc
    simp [cpfFullMatch, hdig] at h2
  exact ⟨hfm, by simp [mask_cpf, hfm]⟩

/-- Witness for C9 at the design-document identifier. -/
theorem c9_witness :
    cpfFullMatch "123.***.***-09".toList = false ∧
    mask_cpf (Cell.str "123.***.***-09".toList) = Cell.null :=
  c9_no_double_masking "123.456.789-09".toList "123.***.***-09".toList (by decide)

/-! Lemmas about the column classifier. -/

theorem lookupCol_eq (name : Str) (cells : List Cell) :
    ∀ l : List (Str × List Cell), (l.map Prod.fst).Nodup → (name, cells) ∈ l →
      lookupCol l name = cells := by
  intro l
  induction l with
  | nil => intro _ h; cases h
  | cons p rest ih =>
    intro hnd hmem
    rw [List.map_cons, List.nodup_cons] at hnd
    rcases List.mem_cons.mp hmem with he | hmem2
    · rw [← he]
      simp [lookupCol]
    · have hne : p.fst ≠ name := by
        intro he2
        apply hnd.1
        rw [he2]
        exact List.mem_map.mpr ⟨(name, cells), hmem2, rfl⟩
      simp only [lookupCol, if_neg hne]
      exact ih hnd.2 hmem2

theorem getCol_eq (df : Table) (name : Str) (cells : List Cell)
    (hnd : (colNames df).Nodup) (hmem : (name, cells) ∈ df.cols) :
    getCol df name = cells :=
  lookupCol_eq name cells df.cols hnd hmem

theorem findCpf_spec (df : Table) :
    ∀ (ns : List Str) (n : Str), findCpf df ns = some n →
      ∃ pre post, ns = pre ++ n :: post ∧
        seriesOf (getCol df n) ≠ [] ∧
        cpfRateHigh (seriesOf (getCol df n)) = true ∧
        ∀ m ∈ pre, seriesOf (getCol df m) = [] ∨
          cpfRateHigh (seriesOf (getCol df m)) = false := by
  intro ns
  induction ns with
  | nil => intro n h; simp [findCpf] at h
  | cons k rest ih =>
    intro n h
    by_cases he : (seriesOf (getCol df k)).isEmpty = true
    · rw [show findCpf df (k :: rest) = findCpf df rest by simp [findCpf, he]] at h
      obtain ⟨pre, post, heq, h1, h2, h3⟩ := ih n h
      refine ⟨k :: pre, post, by rw [heq]; rfl, h1, h2, ?_⟩
      intro m hm
      rcases List.mem_cons.mp hm with rfl | hm2
      · exact Or.inl (List.isEmpty_iff.mp he)
      · exact h3 m hm2
    · have he2 : (seriesOf (getCol df k)).isEmpty = false := by simpa using he
      have hne : seriesOf (getCol df k) ≠ [] := by
        intro hnil
        rw [hnil] at he2
        simp at he2
      by_cases hr : cpfRateHigh (seriesOf (getCol df k)) = true
      · rw [show findCpf df (k :: rest) = some k by simp [findCpf, he2, hr]] at h
        have hkn : k = n := by injection h
        subst hkn
        exact ⟨[], rest, rfl, hne, hr, by intro m hm; cases hm⟩
      · have hr2 : cpfRateHigh (seriesOf (getCol df k)) = false := by simpa using hr
        rw [show findCpf df (k :: rest) = findCpf df rest by
          simp [findCpf, he2, hr2]] at h
        obtain ⟨pre, post, heq, h1, h2, h3⟩ := ih n h
        refine ⟨k :: pre, post, by rw [heq]; rfl, h1, h2, ?_⟩
        intro m hm
        rcases List.mem_cons.mp hm with rfl | hm2
        · exact Or.inr hr2
        · exact h3 m hm2

theorem classify_cpf_eq (df : Table) (n : Str)
    (h : (classify_columns df).cpf = some n) :
    findCpf df (candidateCols df) = some n := by
  cases hf : findCpf df (candidateCols df) with
  | some k =>
    have h2 : (classify_columns df).cpf = some k := by simp [classify_columns, hf]
    rw [h2] at h
    have h3 : k = n := by injection h
    rw [← h3]
  | none =>
    have h2 : (classify_columns df).cpf = none := by simp [classify_columns, hf]
    rw [h2] at h
    exact Option.noConfusion h

theorem classify_nome_some (df : Table) (k : Str)
    (hf : findCpf df (candidateCols df) = some k) :
    (classify_columns df).nome = ((candidateCols df).erase k).filter (nameTest df) := by
  simp [classify_columns, hf]

theorem classify_nome_none (df : Table)
    (hf : findCpf df (candidateCols df) = none) :
    (classify_columns df).nome = (candidateCols df).filter (nameTest df) := by
  simp [classify_columns, hf]

theorem classify_nome_sub (df : Table) (name : Str)
    (h : name ∈ (classify_columns df).nome) :
    name ∈ candidateCols df ∧ nameTest df name = true := by
  cases hf : findCpf df (candidateCols df) with
  | some k =>
    rw [classify_nome_some df k hf] at h
    exact ⟨List.mem_of_mem_erase (List.mem_of_mem_filter h), List.of_mem_filter h⟩
  | none =>
    rw [classify_nome_none df hf] at h
    exact ⟨List.mem_of_mem_filter h, List.of_mem_filter h⟩

/-- C4: when the classifier assigns an identifier column (over a table with
distinct column labels), that column has a nonempty non-null series whose
full-match rate is at least 0.80, it is the first candidate column in table
order with that property (every earlier candidate has an empty series or a
rate below the threshold), and it is removed from name candidacy, so it never
also appears among the name columns.  At most one identifier column ever
exists because the assignment is a single optional slot. -/
theorem c4_identifier_invariant (df : Table) (n : Str)
    (hnd : (colNames df).Nodup)
    (h : (classify_columns df).cpf = some n) :
    (seriesOf (getCol df n) ≠ [] ∧ cpfRateHigh (seriesOf (getCol df n)) = true) ∧
    (∃ pre post, candidateCols df = pre ++ n :: post ∧
      ∀ m ∈ pre, seriesOf (getCol df m) = [] ∨
        cpfRateHigh (seriesOf (getCol df m)) = false) ∧
    n ∉ (classify_columns df).nome := by
  have hf := classify_cpf_eq df n h
  obtain ⟨pre, post, heq, h1, h2, h3⟩ := findCpf_spec df (candidateCols df) n hf
  refine ⟨⟨h1, h2⟩, ⟨pre, post, heq, h3⟩, ?_⟩
  have hcand : (candidateCols df).Nodup := List.Nodup.filter _ hnd
  rw [classify_nome_some df n hf]
  intro hmem
  exact (List.Nodup.not_mem_erase hcand) (List.mem_of_mem_filter hmem)

/-- Witness for C4 at the scenario table, whose identifier column is CPF. -/
theorem c4_witness :
    (colNames scenarioTable).Nodup ∧
    (classify_columns scenarioTable).cpf = some "CPF".toList ∧
    "CPF".toList ∉ (classify_columns scenarioTable).nome :=
  ⟨by decide, by decide,
    (c4_identifier_invariant scenarioTable "CPF".toList (by decide) (by decide)).2.2⟩

/-- C5: a column whose cells are all null is never a classification candidate
(its dtype is not object), so over a table with distinct column labels it is
never the identifier column and never a name column, whatever its label, and
ends up Unclassified. -/
theorem c5_all_null_unclassified (df : Table) (name : Str) (cells : List Cell)
    (hnd : (colNames df).Nodup) (hmem : (name, cells) ∈ df.cols)
    (hnull : ∀ c ∈ cells, c = Cell.null) :
    (classify_columns df).cpf ≠ some name ∧ name ∉ (classify_columns df).nome := by
  have hget : getCol df name = cells := getCol_eq df name cells hnd hmem
  have hobj : isObjectDtype (getCol df name) = false := by
    rw [hget, isObjectDtype, List.any_eq_false]
    intro c hc
    rw [hnull c hc]
    simp [Cell.isStr]
  have hncand : name ∉ candidateCols df := by
    intro hmem2
    have h2 := List.of_mem_filter hmem2
    rw [hobj] at h2
    exact Bool.noConfusion h2
  constructor
  · intro hcpf
    have hf := classify_cpf_eq df name hcpf
    obtain ⟨pre, post, heq, _, _, _⟩ := findCpf_spec df (candidateCols df) name hf
    exact hncand (by rw [heq]; exact List.mem_append_right pre (List.mem_cons_self _ _))
  · intro hmemN
    exact hncand (classify_nome_sub df name hmemN).1

/-- Witness for C5: the all-null column labelled Nome (a keyword label) is not
classified although its label contains a role keyword. -/
theorem c5_witness :
    (classify_columns nullColTable).cpf ≠ some "Nome".toList ∧
    "Nome".toList ∉ (classify_columns nullColTable).nome :=
  c5_all_null_unclassified nullColTable "Nome".toList [Cell.null, Cell.null]
    (by decide) (by decide) (by decide)

theorem contentHit_cons (cells : List Cell) (h0 : Str) (rest : List Str)
    (hser : seriesOf cells = h0 :: rest) :
    contentHit cells =
      if digitRateLow (h0 :: rest) then
        decide (2 ≤ (splitWS h0).length) && istitle h0
      else false := by
  simp only [contentHit, hser]

/-- C6 counterexample: the single candidate column of hyphenTable has no
keyword label, a digit rate below 0.20, and a first value with two whitespace
tokens that is title-case in the token-wise sense of the design document
(first letter capital, remainder free of capitals), yet the classifier does
NOT assign it PersonName, because the istitle test of the source rejects a
lowercase letter that follows a hyphen. -/
theorem c6_counterexample :
    keywordHit "Col1".toList = false ∧
    isObjectDtype (getCol hyphenTable "Col1".toList) = true ∧
    digitRateLow (seriesOf (getCol hyphenTable "Col1".toList)) = true ∧
    2 ≤ (splitWS "Maria-jose Silva".toList).length ∧
    specTitleCase "Maria-jose Silva".toList = true ∧
    "Col1".toList ∉ (classify_columns hyphenTable).nome := by decide

/-- C6 amended: for a candidate column that was not taken as the identifier
column, whose label contains no role keyword and whose non-null series is
nonempty (over a table with distinct labels): a digit rate of at least 0.20
leaves it unclassified, and otherwise it is assigned PersonName exactly when
its first non-null value splits into at least two whitespace tokens and
satisfies the Python istitle predicate (uppercase only after uncased
characters, lowercase only after cased ones, at least one cased character) —
not the token-wise first-letter-capital test. -/
theorem c6_amended_content_heuristic (df : Table) (name : Str)
    (hnd : (colNames df).Nodup)
    (hcand : name ∈ candidateCols df)
    (hncpf : (classify_columns df).cpf ≠ some name)
    (hkw : keywordHit name = false)
    (hne : seriesOf (getCol df name) ≠ []) :
    (digitRateLow (seriesOf (getCol df name)) = false →
      name ∉ (classify_columns df).nome) ∧
    (digitRateLow (seriesOf (getCol df name)) = true →
      (name ∈ (classify_columns df).nome ↔
        2 ≤ (splitWS ((seriesOf (getCol df name)).headD [])).length ∧
        istitle ((seriesOf (getCol df name)).headD []) = true)) := by
  obtain ⟨h0, rest, hser⟩ : ∃ h0 rest, seriesOf (getCol df name) = h0 :: rest := by
    cases hs : seriesOf (getCol df name) with
    | nil => exact absurd hs hne
    | cons a b => exact ⟨a, b, rfl⟩
  have hrem : ∀ k, findCpf df (candidateCols df) = some k →
      name ∈ (candidateCols df).erase k := by
    intro k hf
    have hkn : name ≠ k := by
      intro he
      apply hncpf
      rw [he]
      simp [classify_columns, hf]
    exact (List.Nodup.mem_erase_iff (List.Nodup.filter _ hnd)).mpr ⟨hkn, hcand⟩
  have hmem_iff : name ∈ (classify_columns df).nome ↔ nameTest df name = true := by
    cases hf : findCpf df (candidateCols df) with
    | some k =>
      rw [classify_nome_some df k hf, List.mem_filter]
      exact ⟨fun h => h.2, fun h => ⟨hrem k hf, h⟩⟩
    | none =>
      rw [classify_nome_none df hf, List.mem_filter]
      exact ⟨fun h => h.2, fun h => ⟨hcand, h⟩⟩
  have htest : nameTest df name = contentHit (getCol df name) := by
    rw [nameTest, hkw, Bool.false_or]
  rw [hser]
  constructor
  · intro hlow
    rw [hmem_iff, htest, contentHit_cons (getCol df name) h0 rest hser]
    rw [if_neg (by rw [hlow]; exact Bool.noConfusion)]
    exact Bool.noConfusion
  · intro hhigh
    rw [hmem_iff, htest, contentHit_cons (getCol df name) h0 rest hser, if_pos hhigh]
    simp [Bool.and_eq_true, List.headD_cons]

/-- Witness for C6 amended: applied at the scenario table, the Owner column
(no keyword, digit-free, two-token istitle first value) is assigned
PersonName. -/
theorem c6_witness :
    "Owner".toList ∈ (classify_columns scenarioTable).nome :=
  ((c6_amended_content_heuristic scenarioTable "Owner".toList (by decide) (by decide)
      (by decide) (by decide) (by decide)).2 (by decide)).mpr (by decide)

/-- C7: the pipeline emits nothing exactly when classification fails, that is
when no identifier column was assigned or the list of name columns is empty;
in the embedding the none result is the abort of src/app.py lines 132 to 135,
reached before any masked column is created and before any output is
written. -/
theorem c7_fail_fast (df : Table) :
    process_data_and_anonymize df = none ↔
      ((classify_columns df).cpf = none ∨ (classify_columns df).nome = []) := by
  cases hc : (classify_columns df).cpf with
  | none => simp [process_data_and_anonymize, hc]
  | some cpfCol =>
    cases hn : (classify_columns df).nome with
    | nil => simp [process_data_and_anonymize, hc, hn]
    | cons a b => simp [process_data_and_anonymize, hc, hn]

/-- C1: on the end-to-end scenario table (Owner, CPF, Address) the pipeline
emits the columns CPF, CPF Mascarado and Owner Mascarado: the raw identifier
column IS present in the output and the unclassified Address column is
dropped, contrary to the emission rule stated in the design document. -/
theorem c1_emitted_columns_scenario :
    (process_data_and_anonymize scenarioTable).map colNames =
      some ["CPF".toList, "CPF Mascarado".toList, "Owner Mascarado".toList] := by
  decide
